import Mathlib

/-
Verification development for the binwalk magic-file parser module
(binwalk/parser.py, class MagicParser).

Modelling conventions:
- Python byte strings and text strings are modelled as `List Char`, one
  `Char` per byte (the compat layer maps bytes to one-character strings
  one to one, so this identification is faithful).
- Machine integers do not occur; Python integers are `Int` / `Nat`.
- Raised exceptions are modelled as `Except` error values.
- The `re` module is modelled by a `Matcher` datatype: `re.compile('.')`
  becomes `Matcher.dot` (matching any single byte except the newline
  byte 0x0A), and `re.compile(re.escape(s))` becomes `Matcher.literal s`
  (matching exactly the byte sequence `s`). `finditer` is modelled by a
  left-to-right scan reporting non-overlapping occurrences, advancing by
  the match length (at least one) after each reported occurrence.
- Python dictionaries are modelled as insertion-ordered association
  lists; Python sets as deduplicated lists.
-/

deriving instance DecidableEq for Except

namespace Binwalk

/-- Endianness marker, mirroring `BIG_ENDIAN` / `LITTLE_ENDIAN`. -/
inductive Endian
  | little
  | big
deriving DecidableEq, Repr

/-- Wildcard sentinel string, mirroring `WILDCARD = 'x'`. -/
def WILDCARD : List Char := ['x']

/-- Test whether a character is an ASCII decimal digit. -/
def isDigitC (c : Char) : Bool := decide ('0' ≤ c ∧ c ≤ '9')

/-- Test whether a character is an ASCII hexadecimal digit. -/
def isHexC (c : Char) : Bool :=
  decide (('0' ≤ c ∧ c ≤ '9') ∨ ('a' ≤ c ∧ c ≤ 'f') ∨ ('A' ≤ c ∧ c ≤ 'F'))

/-- Test whether a character is an ASCII octal digit. -/
def isOctC (c : Char) : Bool := decide ('0' ≤ c ∧ c ≤ '7')

/-- Numeric value of a decimal digit character. -/
def digitVal (c : Char) : Nat := c.toNat - ('0').toNat

/-- Numeric value of a hexadecimal digit character. -/
def hexVal (c : Char) : Nat :=
  if isDigitC c then digitVal c
  else if decide ('a' ≤ c ∧ c ≤ 'f') then c.toNat - ('a').toNat + 10
  else c.toNat - ('A').toNat + 10

/-- Accumulate the numeric value of a digit string in a given base. -/
def natFromDigits (base : Nat) (v : Char → Nat) (t : List Char) : Nat :=
  t.foldl (fun acc c => acc * base + v c) 0

/-- Modelled from the spec: the integer-literal reader used for the offset
and the numeric condition token (`binwalk.common.str2int` is not under
src/). The spec admits decimal, hexadecimal and octal numeral forms; a
token that fits none of them is an error. Magnitude part, without sign. -/
def str2intCore (t : List Char) : Except Unit Nat :=
  match t with
  | '0' :: 'x' :: r =>
    if r ≠ [] ∧ r.all isHexC then .ok (natFromDigits 16 hexVal r) else .error ()
  | '0' :: 'X' :: r =>
    if r ≠ [] ∧ r.all isHexC then .ok (natFromDigits 16 hexVal r) else .error ()
  | '0' :: 'o' :: r =>
    if r ≠ [] ∧ r.all isOctC then .ok (natFromDigits 8 digitVal r) else .error ()
  | '0' :: 'O' :: r =>
    if r ≠ [] ∧ r.all isOctC then .ok (natFromDigits 8 digitVal r) else .error ()
  | _ =>
    if t ≠ [] ∧ t.all isDigitC then .ok (natFromDigits 10 digitVal t)
    else if t ≠ [] ∧ t.all isHexC then .ok (natFromDigits 16 hexVal t)
    else .error ()

/-- Modelled from the spec: signed integer-literal reader
(`binwalk.common.str2int` is not under src/). -/
def str2int (s : List Char) : Except Unit Int :=
  match s with
  | '-' :: r =>
    match str2intCore r with
    | .ok n => .ok (-(n : Int))
    | .error e => .error e
  | _ =>
    match str2intCore s with
    | .ok n => .ok ((n : Int))
    | .error e => .error e

/-- Modelled from the spec: backslash-escape sequences in the condition
token are decoded into raw bytes (`binwalk.compat.string_decode` is not
under src/). Hexadecimal escapes, the common single-character escapes and
the zero escape are decoded; an unrecognized escape is kept verbatim. -/
def string_decode : List Char → List Char
  | [] => []
  | '\\' :: 'x' :: h1 :: h2 :: rest =>
    if isHexC h1 && isHexC h2 then
      Char.ofNat (16 * hexVal h1 + hexVal h2) :: string_decode rest
    else
      '\\' :: 'x' :: string_decode (h1 :: h2 :: rest)
  | '\\' :: 'n' :: rest => Char.ofNat 10 :: string_decode rest
  | '\\' :: 't' :: rest => Char.ofNat 9 :: string_decode rest
  | '\\' :: 'r' :: rest => Char.ofNat 13 :: string_decode rest
  | '\\' :: '\\' :: rest => '\\' :: string_decode rest
  | '\\' :: '0' :: rest => Char.ofNat 0 :: string_decode rest
  | '\\' :: c :: rest => '\\' :: c :: string_decode rest
  | c :: rest => c :: string_decode rest

/-- Whitespace characters recognized by the Python `str.split()` tokenizer. -/
def isWsC (c : Char) : Bool :=
  decide (c = ' ' ∨ c = '\t' ∨ c = Char.ofNat 10 ∨ c = Char.ofNat 13 ∨
          c = Char.ofNat 11 ∨ c = Char.ofNat 12)

/-- Helper for `splitWs`: accumulates the current word (reversed). -/
def splitWsAux : List Char → List Char → List (List Char)
  | [], acc => if acc = [] then [] else [acc.reverse]
  | c :: cs, acc =>
    if isWsC c then
      if acc = [] then splitWsAux cs [] else acc.reverse :: splitWsAux cs []
    else
      splitWsAux cs (c :: acc)

/-- Split on runs of whitespace, dropping empty fields, as Python
`str.split()` with no argument does. -/
def splitWs (s : List Char) : List (List Char) := splitWsAux s []

/-- Replace every escaped space by its hexadecimal escape before
tokenizing, mirroring `line.replace` in `_parse_line`. -/
def replaceEscSpace : List Char → List Char
  | '\\' :: ' ' :: rest => '\\' :: 'x' :: '2' :: '0' :: replaceEscSpace rest
  | c :: rest => c :: replaceEscSpace rest
  | [] => []

/-- Rejoin the description fields with single spaces, mirroring
the Python space join of the remaining fields. -/
def joinSpace : List (List Char) → List Char
  | [] => []
  | [w] => w
  | w :: ws => w ++ ' ' :: joinSpace ws

/-- Strip the long-suffix marker from both ends of the condition token,
mirroring the Python strip of the capital L character. -/
def stripLMarker (s : List Char) : List Char :=
  ((s.dropWhile (fun c => c = 'L')).reverse.dropWhile (fun c => c = 'L')).reverse

/-- Boolean substring test. -/
def hasSub (needle hay : List Char) : Bool := decide (List.IsInfix needle hay)

/-- Byte `i` of the little-endian encoding of an integer: the Python
expression shifting right by `8*i` and masking with 0xFF, on arbitrary
(also negative) Python integers. -/
def byteAt (value : Int) (i : Nat) : Nat :=
  ((value.fdiv ((2 : Int) ^ (8 * i))) % 256).toNat

/-- The value encoder `MagicParser._to_string`: builds the little-endian
byte string of `value` over `size` bytes and reverses it when the
endianness is not little. -/
def to_string (value : Int) (size : Nat) (endianess : Endian) : List Char :=
  let data := (List.range size).map (fun i => Char.ofNat (byteAt value i))
  if endianess = Endian.little then data else data.reverse

/-- One parsed signature entry, mirroring the entry dictionary built by
`_parse_line`. -/
structure Entry where
  offset : Int
  type : List Char
  condition : List Char
  description : List Char
  length : Nat
deriving DecidableEq, Repr

/-- Parse-time failures raised inside `_parse_line`; each carries the
diagnostic context the corresponding Python exception message carries. -/
inductive PErr
  | tokenization (line : List Char)
  | offsetParse (line : List Char)
  | condParse (description ty cond : List Char)
deriving DecidableEq, Repr

/-- Endianness derived from the type token: BIG when it starts with the
be prefix, else LITTLE, mirroring the startswith branch of `_parse_line`. -/
def endianOf (ty : List Char) : Endian :=
  if List.isPrefixOf (("be").toList) ty then Endian.big else Endian.little

/-- Field length derived from the type keyword, mirroring the if-elif
chain of `_parse_line`: byte is 1, a token containing short is 2, long is
4, quad is 8, anything else keeps the initial length 0. -/
def typeLen (ty : List Char) : Nat :=
  if ty = ("byte").toList then 1
  else if hasSub (("short").toList) ty then 2
  else if hasSub (("long").toList) ty then 4
  else if hasSub (("quad").toList) ty then 8
  else 0

/-- Resolve the condition and length fields of an entry from its four
tokenized parts, mirroring the second half of `_parse_line`: the string
and wildcard cases keep the decoded condition and its length; the numeric
case parses the condition (long-suffix marker stripped) as an integer and
encodes it over `typeLen ty` bytes with endianness `endianOf ty`. -/
def mkEntry (offV : Int) (ty cond desc : List Char) : Except PErr Entry :=
  if hasSub (("string").toList) ty ∨ cond = WILDCARD then
    .ok ⟨offV, ty, cond, desc, cond.length⟩
  else
    match str2int (stripLMarker cond) with
    | .error _ => .error (.condParse desc ty cond)
    | .ok intval =>
      .ok ⟨offV, ty, to_string intval (typeLen ty) (endianOf ty), desc, typeLen ty⟩

/-- The entry parser `MagicParser._parse_line`: `.ok none` for a line that
does not begin with an ASCII decimal digit (not the first line of a
signature), `.ok (some e)` for a successfully parsed first line, and
`.error` for a malformed digit-leading line. -/
def _parse_line (line : List Char) : Except PErr (Option Entry) :=
  match line with
  | [] => .ok none
  | c :: _ =>
    if ¬ ('0' ≤ c ∧ c ≤ '9') then .ok none
    else
      match splitWs (replaceEscSpace line) with
      | offTok :: ty :: condTok :: rest =>
        match str2int offTok with
        | .error _ => .error (.offsetParse line)
        | .ok offV =>
          match mkEntry offV ty (string_decode condTok) (joinSpace rest) with
          | .error e => .error e
          | .ok entry => .ok (some entry)
      | _ => .error (.tokenization line)

/-- A compiled matcher: `Matcher.dot` stands for the compiled regex of the
single dot pattern (any one byte except newline), `Matcher.literal s` for
the compiled regex of the escaped literal `s` (exactly the bytes of `s`). -/
inductive Matcher
  | literal (s : List Char)
  | dot
deriving DecidableEq, Repr

/-- Compile one raw condition, mirroring the branch on `WILDCARD` inside
`build_signature_set`. -/
def compileSig (sig : List Char) : Matcher :=
  if sig = WILDCARD then Matcher.dot else Matcher.literal sig

/-- The pattern compiler `MagicParser.build_signature_set`: every condition
across every offset is compiled and the results are collapsed into a set
(modelled as a deduplicated list). -/
def build_signature_set (signatures : List (Int × List (List Char))) : List Matcher :=
  ((signatures.flatMap (fun p => p.2)).map compileSig).dedup

/-- Length of the text a matcher consumes when it matches. -/
def matchLen : Matcher → Nat
  | .literal s => s.length
  | .dot => 1

/-- Whether a matcher matches in `data` at position `pos`. -/
def matchesAt (m : Matcher) (data : List Char) (pos : Nat) : Bool :=
  match m with
  | .literal s => decide ((data.drop pos).take s.length = s)
  | .dot =>
    match data.drop pos with
    | [] => false
    | c :: _ => decide (¬ c = Char.ofNat 10)

/-- Left-to-right non-overlapping scan underlying `finditer`: report a
match and resume after it (advancing at least one position); otherwise try
the next position. The fuel argument bounds the number of positions. -/
def scanAux (m : Matcher) (data : List Char) : Nat → Nat → List Nat
  | 0, _ => []
  | Nat.succ fuel, pos =>
    if data.length < pos then []
    else if matchesAt m data pos then
      pos :: scanAux m data fuel (pos + Nat.max 1 (matchLen m))
    else
      scanAux m data fuel (pos + 1)

/-- All match start positions `finditer` reports for a matcher on `data`. -/
def finditerPos (m : Matcher) (data : List Char) : List Nat :=
  scanAux m data (data.length + 1) 0

/-- The candidate scanner `MagicParser.find_signature_candidates`: collect
the reported match positions of every matcher that are strictly below
the bound, deduplicate, and sort ascending. -/
def find_signature_candidates (sigset : List Matcher) (data : List Char)
    (endB : Nat) : List Nat :=
  List.insertionSort (fun a b => a ≤ b)
    ((sigset.flatMap
        (fun m => (finditerPos m data).filter (fun i => decide (i < endB)))).dedup)

/-- Mutable parser state of a `MagicParser` instance: the per-offset
condition catalog, the admitted-entry counter, the lines written to the
temporary magic file, and the compiled matcher set. -/
structure ParserState where
  signatures : List (Int × List (List Char))
  signature_count : Nat
  fd : List (List Char)
  signature_set : List Matcher
deriving DecidableEq, Repr

/-- Fresh parser state, mirroring the constructor. -/
def initState : ParserState := ⟨[], 0, [], []⟩

/-- Insert a condition into the per-offset catalog: create the offset
entry when absent; re-insertion of an identical condition is a no-op. -/
def insertCond : List (Int × List (List Char)) → Int → List Char →
    List (Int × List (List Char))
  | [], off, cond => [(off, [cond])]
  | (o, cs) :: rest, off, cond =>
    if o = off then
      (o, if cond ∈ cs then cs else cs ++ [cond]) :: rest
    else
      (o, cs) :: insertCond rest off cond

/-- A load-aborting error: the originating parse failure wrapped with the
file name and the 1-based line number, mirroring the exception re-raised
by `parse_file`. -/
structure LoadErr where
  fileName : List Char
  lineNo : Nat
  cause : PErr
deriving DecidableEq, Repr

/-- The per-line loop body of `parse_file`: walks the lines of one file,
tracking the 0-based count of lines already consumed and the `include`
flag, updating the catalog and the output stream. An entry line that
parses is admitted or rejected by the filter; lines of an included group
are copied to the output stream. A malformed digit-leading line aborts
the walk with a wrapped error. -/
def parseLines (filt : List Char → Bool) (fname : List Char) :
    List (List Char) → Nat → ParserState → Bool → Except LoadErr ParserState
  | [], _, st, _ => .ok st
  | l :: ls, n, st, inc =>
    match _parse_line l with
    | .error e => .error ⟨fname, n + 1, e⟩
    | .ok none =>
      let st := if inc then { st with fd := st.fd ++ [l] } else st
      parseLines filt fname ls (n + 1) st inc
    | .ok (some entry) =>
      if filt entry.description then
        let st :=
          { st with
            signature_count := st.signature_count + 1,
            signatures := insertCond st.signatures entry.offset entry.condition }
        let st := { st with fd := st.fd ++ [l] }
        parseLines filt fname ls (n + 1) st true
      else
        parseLines filt fname ls (n + 1) st false

/-- The per-file loader `MagicParser.parse_file`: processes every line of
the file and, on success, ends by rebuilding the compiled matcher set
from the current catalog. On a malformed line it returns the wrapped
error instead of a state. -/
def parse_file (filt : List Char → Bool) (fname : List Char)
    (lines : List (List Char)) (st : ParserState) : Except LoadErr ParserState :=
  match parseLines filt fname lines 0 st false with
  | .error e => .error e
  | .ok st => .ok { st with signature_set := build_signature_set st.signatures }

/-- Look a file up in the modelled file system (a list of name-lines
pairs). -/
def lookupFile : List (List Char × List (List Char)) → List Char →
    Option (List (List Char))
  | [], _ => none
  | (n, ls) :: rest, p => if n = p then some ls else lookupFile rest p

/-- The warning text emitted for a missing definition file. -/
def warnMsg (p : List Char) : List Char :=
  (("WARNING: Magic file ").toList) ++ p ++ ((" does not exist").toList)

/-- The multi-file driver `MagicParser.parse`: for each named path, load
the file when it exists, otherwise emit a warning and continue with the
remaining paths. Returns the final state (whose `fd` field is the
filtered definition stream handed back to the caller) together with the
warnings emitted. -/
def parse (filt : List Char → Bool) (fs : List (List Char × List (List Char))) :
    List (List Char) → ParserState → List (List Char) →
    Except LoadErr (ParserState × List (List Char))
  | [], st, w => .ok (st, w)
  | p :: ps, st, w =>
    match lookupFile fs p with
    | some lines =>
      match parse_file filt p lines st with
      | .error e => .error e
      | .ok st => parse filt fs ps st w
    | none => parse filt fs ps st (w ++ [warnMsg p])

/-- The condition field of the entry a line parses to, when it parses. -/
def parsedCondition (line : List Char) : Option (List Char) :=
  match _parse_line line with
  | .ok (some e) => some e.condition
  | _ => none

/-- A filter collaborator that admits every entry. -/
def alwaysInclude : List Char → Bool := fun _ => true

/-- State after loading a one-line file whose numeric condition encodes to
the single byte 0x78. -/
def c1state : ParserState :=
  match parse_file alwaysInclude (("f").toList)
      [(("0 byte 0x78 desc\n").toList)] initState with
  | .ok st => st
  | .error _ => initState

/-- State after loading a file holding a literal 0xff entry and a wildcard
entry, both at offset 0. -/
def c2state : ParserState :=
  match parse_file alwaysInclude (("f").toList)
      [(("0 byte 0xff A\n").toList), (("0 byte x B\n").toList)] initState with
  | .ok st => st
  | .error _ => initState

/-- The compiled matcher set of `c2state`. -/
def c2set : List Matcher := c2state.signature_set

/-- The entry parsed from the line `0 byte 0xff A`. -/
def c3entry : Entry := ⟨0, ("byte").toList, [Char.ofNat 255], ['A'], 1⟩

/-- Compiled matcher set after loading a one-line file with the literal
string condition `aa`. -/
def c5set : List Matcher :=
  match parse_file alwaysInclude (("f").toList)
      [(("0 string aa A\n").toList)] initState with
  | .ok st => st.signature_set
  | .error _ => []

/-- Two definition files that both declare offset 0 with condition AB. -/
def c6fs : List (List Char × List (List Char)) :=
  [((("f1").toList), [(("0 string AB D\n").toList)]),
   ((("f2").toList), [(("0 string AB D\n").toList)])]

/-- State after loading both files of `c6fs`. -/
def c6state : ParserState :=
  match parse alwaysInclude c6fs [(("f1").toList), (("f2").toList)] initState [] with
  | .ok (st, _) => st
  | .error _ => initState

/-- The entry parsed from the line `0 float 5 d`, whose type keyword is
outside the recognized length table. -/
def c7entry : Entry := ⟨0, ("float").toList, [], ['d'], 0⟩

/-- A one-file modelled file system used for the missing-file scenario. -/
def c9fs : List (List Char × List (List Char)) :=
  [((("good").toList), [(("0 byte 0xff A\n").toList)])]

/-- The state reached after loading the single existing file of `c9fs`. -/
def c9final : ParserState :=
  ⟨[((0 : Int), [[Char.ofNat 255]])], 1, [(("0 byte 0xff A\n").toList)],
   [Matcher.literal [Char.ofNat 255]]⟩

theorem to_string_length (value : Int) (size : Nat) (en : Endian) :
    (to_string value size en).length = size := by
  simp only [to_string]
  split <;> simp

theorem to_string_little_byte (value : Int) (size i : Nat) (h : i < size) :
    (to_string value size Endian.little)[i]? = some (Char.ofNat (byteAt value i)) := by
  simp [to_string, List.getElem?_eq_getElem, h]

theorem byteAt_lt (value : Int) (i : Nat) : byteAt value i < 256 := by
  have hne : (256 : Int) ≠ 0 := by decide
  have h1 := Int.emod_nonneg (value.fdiv ((2 : Int) ^ (8 * i))) hne
  have h2 := Int.emod_lt_of_pos (value.fdiv ((2 : Int) ^ (8 * i)))
    (by decide : (0 : Int) < 256)
  unfold byteAt
  omega

/-- C4: the value encoder returns exactly `size` bytes; in the
little-endian order byte `i` is the Python expression shifting `value`
right by `8*i` bits and masking with 0xFF (`byteAt`), each such byte is
below 256, the big-endian order is the reverse of the little-endian one,
and encoding 0x1234 over 4 bytes big-endian gives the bytes
00 00 12 34. -/
theorem C4_value_encoder (value : Int) (size : Nat) (en : Endian)
    (i : Nat) (h : i < size) :
    (to_string value size en).length = size ∧
    (to_string value size Endian.little)[i]? = some (Char.ofNat (byteAt value i)) ∧
    byteAt value i < 256 ∧
    to_string value size Endian.big = (to_string value size Endian.little).reverse ∧
    to_string 4660 4 Endian.big =
      [Char.ofNat 0, Char.ofNat 0, Char.ofNat 18, Char.ofNat 52] := by
  refine ⟨to_string_length value size en, to_string_little_byte value size i h,
    byteAt_lt value i, ?_, by decide⟩
  simp [to_string]

/-- Witness for C4 at `value = 0x1234`, `size = 4`, `i = 1`. -/
theorem C4_value_encoder_witness :
    (to_string 4660 4 Endian.big).length = 4 ∧
    (to_string 4660 4 Endian.little)[1]? = some (Char.ofNat (byteAt 4660 1)) ∧
    byteAt 4660 1 < 256 ∧
    to_string 4660 4 Endian.big = (to_string 4660 4 Endian.little).reverse ∧
    to_string 4660 4 Endian.big =
      [Char.ofNat 0, Char.ofNat 0, Char.ofNat 18, Char.ofNat 52] :=
  C4_value_encoder 4660 4 Endian.big 1 (by decide)

theorem to_string_zero (value : Int) (en : Endian) : to_string value 0 en = [] := by
  simp [to_string]

theorem mkEntry_length (offV : Int) (ty cond desc : List Char) (e : Entry)
    (h : mkEntry offV ty cond desc = Except.ok e) :
    e.length = e.condition.length := by
  unfold mkEntry at h
  split at h
  · simp only [Except.ok.injEq] at h
    subst h
    rfl
  · split at h
    · simp at h
    · simp only [Except.ok.injEq] at h
      subst h
      simp [to_string_length]

theorem mkEntry_type (offV : Int) (ty cond desc : List Char) (e : Entry)
    (h : mkEntry offV ty cond desc = Except.ok e) : e.type = ty := by
  unfold mkEntry at h
  split at h
  · simp only [Except.ok.injEq] at h
    subst h
    rfl
  · split at h
    · simp at h
    · simp only [Except.ok.injEq] at h
      subst h
      rfl

theorem parse_line_ok_mkEntry (line : List Char) (e : Entry)
    (h : _parse_line line = Except.ok (some e)) :
    ∃ offV ty cond desc, mkEntry offV ty cond desc = Except.ok e := by
  unfold _parse_line at h
  repeat' split at h
  all_goals first
    | (simp only [Except.ok.injEq, Option.some.injEq] at h
       subst h
       rename_i heq
       exact ⟨_, _, _, _, heq⟩)
    | simp at h

/-- C3: for every line that parses successfully into an entry, the length
field of the entry equals the byte length of its resolved condition. -/
theorem C3_length_matches_condition (line : List Char) (e : Entry)
    (h : _parse_line line = Except.ok (some e)) :
    e.length = e.condition.length := by
  obtain ⟨offV, ty, cond, desc, hmk⟩ := parse_line_ok_mkEntry line e h
  exact mkEntry_length offV ty cond desc e hmk

/-- Witness for C3 at the line `0 byte 0xff A`. -/
theorem C3_length_matches_condition_witness :
    c3entry.length = c3entry.condition.length :=
  C3_length_matches_condition (("0 byte 0xff A\n").toList) c3entry (by decide)

theorem mkEntry_unknown_type (offV : Int) (ty cond desc : List Char) (e : Entry)
    (h : mkEntry offV ty cond desc = Except.ok e)
    (hstr : hasSub (("string").toList) ty = false)
    (hwild : e.condition ≠ WILDCARD)
    (hbyte : ty ≠ ("byte").toList)
    (hshort : hasSub (("short").toList) ty = false)
    (hlong : hasSub (("long").toList) ty = false)
    (hquad : hasSub (("quad").toList) ty = false) :
    e.length = 0 ∧ e.condition = [] := by
  have hstr2 : hasSub (['s', 't', 'r', 'i', 'n', 'g']) ty = false := hstr
  have hbyte2 : ty ≠ (['b', 'y', 't', 'e']) := hbyte
  have hshort2 : hasSub (['s', 'h', 'o', 'r', 't']) ty = false := hshort
  have hlong2 : hasSub (['l', 'o', 'n', 'g']) ty = false := hlong
  have hquad2 : hasSub (['q', 'u', 'a', 'd']) ty = false := hquad
  unfold mkEntry at h
  split at h
  · rename_i hcond
    simp only [Except.ok.injEq] at h
    subst h
    rcases hcond with hc | hc
    · simp [hstr2] at hc
    · exact absurd hc hwild
  · split at h
    · simp at h
    · simp only [Except.ok.injEq] at h
      subst h
      have hlen : typeLen ty = 0 := by
        simp [typeLen, hbyte2, hshort2, hlong2, hquad2]
      refine ⟨hlen, ?_⟩
      show to_string _ (typeLen ty) (endianOf ty) = []
      rw [hlen]
      exact to_string_zero _ _

/-- C7: a successfully parsed numeric entry (not the string case, not the
wildcard sentinel) whose type keyword is not byte and contains none of
short, long, quad gets length 0, and its condition becomes the empty byte
sequence since encoding over 0 bytes yields the empty sequence. -/
theorem C7_unrecognized_type_empty (line : List Char) (e : Entry)
    (h : _parse_line line = Except.ok (some e))
    (hstr : hasSub (("string").toList) e.type = false)
    (hwild : e.condition ≠ WILDCARD)
    (hbyte : e.type ≠ ("byte").toList)
    (hshort : hasSub (("short").toList) e.type = false)
    (hlong : hasSub (("long").toList) e.type = false)
    (hquad : hasSub (("quad").toList) e.type = false) :
    e.length = 0 ∧ e.condition = [] := by
  obtain ⟨offV, ty, cond, desc, hmk⟩ := parse_line_ok_mkEntry line e h
  have hty := mkEntry_type offV ty cond desc e hmk
  subst hty
  exact mkEntry_unknown_type offV e.type cond desc e hmk hstr hwild hbyte
    hshort hlong hquad

/-- Witness for C7 at the line `0 float 5 d`. -/
theorem C7_unrecognized_type_empty_witness :
    c7entry.length = 0 ∧ c7entry.condition = [] :=
  C7_unrecognized_type_empty (("0 float 5 d\n").toList) c7entry (by decide)
    (by decide) (by decide) (by decide) (by decide) (by decide) (by decide)

theorem mem_find_signature_candidates (sigset : List Matcher) (data : List Char)
    (endB i : Nat) :
    i ∈ find_signature_candidates sigset data endB ↔
      (i < endB ∧ ∃ m ∈ sigset, i ∈ finditerPos m data) := by
  unfold find_signature_candidates
  rw [List.mem_insertionSort, List.mem_dedup, List.mem_flatMap]
  constructor
  · rintro ⟨m, hm, hi⟩
    rw [List.mem_filter] at hi
    exact ⟨by simpa using hi.2, m, hm, hi.1⟩
  · rintro ⟨hlt, m, hm, hi⟩
    refine ⟨m, hm, ?_⟩
    rw [List.mem_filter]
    exact ⟨hi, by simpa using hlt⟩

theorem find_signature_candidates_sorted (sigset : List Matcher)
    (data : List Char) (endB : Nat) :
    List.Pairwise (· < ·) (find_signature_candidates sigset data endB) := by
  unfold find_signature_candidates
  have hs : List.Sorted (fun a b : Nat => a ≤ b)
      (List.insertionSort (fun a b : Nat => a ≤ b)
        ((sigset.flatMap fun m =>
          (finditerPos m data).filter fun i => decide (i < endB)).dedup)) :=
    List.sorted_insertionSort _ _
  have hnd :
      (List.insertionSort (fun a b : Nat => a ≤ b)
        ((sigset.flatMap fun m =>
          (finditerPos m data).filter fun i => decide (i < endB)).dedup)).Nodup :=
    (List.perm_insertionSort _ _).symm.nodup (List.nodup_dedup _)
  exact (List.Pairwise.and hs hnd).imp (fun hab => lt_of_le_of_ne hab.1 hab.2)

theorem matchesAt_dot_lt (data : List Char) (i : Nat)
    (h : matchesAt Matcher.dot data i = true) : i < data.length := by
  unfold matchesAt at h
  by_contra hge
  rw [List.drop_eq_nil_of_le (by omega)] at h
  simp at h

theorem matchesAt_dot_of (data : List Char) (i : Nat) (h : i < data.length)
    (hc : data.get ⟨i, h⟩ ≠ Char.ofNat 10) : matchesAt Matcher.dot data i = true := by
  unfold matchesAt
  rw [List.drop_eq_getElem_cons h]
  simpa using hc

theorem mem_scanAux_dot (data : List Char) :
    ∀ (fuel pos i : Nat), pos ≤ i → i < pos + fuel →
      matchesAt Matcher.dot data i = true → i ∈ scanAux Matcher.dot data fuel pos
  | 0, _, i, h1, h2, _ => absurd h2 (by omega)
  | Nat.succ fuel, pos, i, h1, h2, h3 => by
    have hlt : i < data.length := matchesAt_dot_lt data i h3
    unfold scanAux
    rw [if_neg (by omega)]
    by_cases hp : matchesAt Matcher.dot data pos = true
    · rw [if_pos hp]
      rcases Nat.eq_or_lt_of_le h1 with rfl | hgt
      · exact List.mem_cons_self _ _
      · exact List.mem_cons_of_mem _
          (mem_scanAux_dot data fuel (pos + 1) i (by omega) (by omega) h3)
    · rw [if_neg hp]
      have hne : i ≠ pos := fun he => hp (he ▸ h3)
      exact mem_scanAux_dot data fuel (pos + 1) i (by omega) (by omega) h3

theorem mem_finditerPos_dot (data : List Char) (i : Nat) (h : i < data.length)
    (hc : data.get ⟨i, h⟩ ≠ Char.ofNat 10) : i ∈ finditerPos Matcher.dot data := by
  unfold finditerPos
  exact mem_scanAux_dot data (data.length + 1) 0 i (by omega) (by omega)
    (matchesAt_dot_of data i h hc)

/-- C5 counterexample: with the compiled set of the single literal
condition `aa` (from the line `0 string aa A`), the buffer `aaa` and
bound 2, a match exists at position 1 (the bound minus one) but the
scanner output is just the position 0: the left-to-right scan reports
non-overlapping occurrences only, so the claimed "a match at position
bound-1 is kept" fails as stated. -/
theorem C5_overlap_counterexample :
    c5set = [Matcher.literal ['a', 'a']] ∧
    matchesAt (Matcher.literal ['a', 'a']) (("aaa").toList) 1 = true ∧
    find_signature_candidates c5set (("aaa").toList) 2 = [0] := by decide

/-- C5 amended: the scanner output is strictly ascending and duplicate
free, every reported offset is strictly below the bound, bound 0 gives
the empty result, and an offset is reported exactly when some matcher of
the set has a scan-reported (non-overlapping) occurrence there below the
bound; in particular a reported occurrence at bound-1 is kept and any
occurrence at or beyond the bound is excluded. -/
theorem C5_scan_order_and_bound (sigset : List Matcher) (data : List Char)
    (bound : Nat) :
    List.Pairwise (· < ·) (find_signature_candidates sigset data bound) ∧
    (∀ i ∈ find_signature_candidates sigset data bound, i < bound) ∧
    find_signature_candidates sigset data 0 = [] ∧
    (∀ i, i ∈ find_signature_candidates sigset data bound ↔
      (i < bound ∧ ∃ m ∈ sigset, i ∈ finditerPos m data)) := by
  refine ⟨find_signature_candidates_sorted sigset data bound, ?_, ?_, ?_⟩
  · intro i hi
    exact ((mem_find_signature_candidates sigset data bound i).1 hi).1
  · rw [List.eq_nil_iff_forall_not_mem]
    intro i hi
    have := ((mem_find_signature_candidates sigset data 0 i).1 hi).1
    omega
  · intro i
    exact mem_find_signature_candidates sigset data bound i

/-- Witness for C5 amended: the bound 0 case at a concrete set and
buffer. -/
theorem C5_scan_order_and_bound_witness :
    find_signature_candidates [Matcher.dot] ['a'] 0 = [] :=
  (C5_scan_order_and_bound [Matcher.dot] ['a'] 7).2.2.1

/-- C2 counterexample: after loading one literal 0xff entry and one
wildcard entry at offset 0, the compiled set does have exactly 2
matchers, but on the non-empty buffer holding the single newline byte
0x0A the wildcard matcher contributes no candidate at position 0: the
compiled dot pattern does not match the newline byte. -/
theorem C2_newline_counterexample :
    c2set.length = 2 ∧
    find_signature_candidates c2set [Char.ofNat 10] 1 = [] := by decide

/-- C2 amended: the compiled set has exactly 2 matchers, and the wildcard
matcher contributes a candidate at every position of the buffer that is
below the bound and whose byte is not the newline byte 0x0A. -/
theorem C2_two_matchers_wildcard_positions (data : List Char) (bound i : Nat)
    (h : i < data.length) (hb : i < bound)
    (hc : data.get ⟨i, h⟩ ≠ Char.ofNat 10) :
    c2set.length = 2 ∧ i ∈ find_signature_candidates c2set data bound := by
  have hset : c2set = [Matcher.literal [Char.ofNat 255], Matcher.dot] := by decide
  refine ⟨by rw [hset]; rfl, ?_⟩
  rw [mem_find_signature_candidates]
  exact ⟨hb, Matcher.dot, by rw [hset]; simp, mem_finditerPos_dot data i h hc⟩

/-- Witness for C2 amended: the buffer `A` with bound 1 at position 0. -/
theorem C2_two_matchers_wildcard_positions_witness :
    c2set.length = 2 ∧ 0 ∈ find_signature_candidates c2set ['A'] 1 :=
  C2_two_matchers_wildcard_positions ['A'] 1 0 (by decide) (by decide) (by decide)

/-- C1 counterexample: the line `0 byte 0x78 desc` parses to an entry
whose encoded condition is the single byte 0x78, which is the very
wildcard sentinel string; its compiled matcher is the match-any dot
matcher, which also matches the byte 0x41, refuting that the compiled
matcher matches only the byte 0x78. -/
theorem C1_encoded_x_counterexample :
    parsedCondition (("0 byte 0x78 desc\n").toList) = some WILDCARD ∧
    c1state.signature_set = [Matcher.dot] ∧
    matchesAt Matcher.dot [Char.ofNat 65] 0 = true := by decide

/-- C1 amended: the wildcard sentinel is not stored distinctly from the
one-byte literal 0x78: a condition compiles to the match-any matcher
exactly when it equals the one-byte encoding of the value 0x78 (the
wildcard sentinel itself), and the numeric line `0 byte 0x78 desc`
parses to exactly that condition. -/
theorem C1_wildcard_not_distinct (sig : List Char) :
    (compileSig sig = Matcher.dot ↔ sig = to_string 120 1 Endian.little) ∧
    parsedCondition (("0 byte 0x78 desc\n").toList) =
      some (to_string 120 1 Endian.little) := by
  have hx : to_string 120 1 Endian.little = WILDCARD := by decide
  constructor
  · rw [hx]
    unfold compileSig
    constructor
    · intro h
      by_contra hne
      rw [if_neg hne] at h
      simp at h
    · intro h
      rw [if_pos h]
  · rw [hx]
    decide

/-- C6: identical raw conditions collapse to exactly one matcher in the
compiled set, however many offsets, entries or definition files produced
them; in the concrete two-file run of `c6fs` the offset-0 condition set
holds AB once and the compiled set holds exactly one literal matcher. -/
theorem C6_conditions_collapse (signatures : List (Int × List (List Char)))
    (c : List Char) (h : ∃ p ∈ signatures, c ∈ p.2) :
    List.count (compileSig c) (build_signature_set signatures) = 1 ∧
    c6state.signatures = [((0 : Int), [['A', 'B']])] ∧
    c6state.signature_set = [Matcher.literal ['A', 'B']] := by
  refine ⟨?_, by decide, by decide⟩
  unfold build_signature_set
  apply List.count_eq_one_of_mem (List.nodup_dedup _)
  rw [List.mem_dedup]
  exact List.mem_map_of_mem compileSig (List.mem_flatMap.2 h)

/-- Witness for C6 at the one-offset catalog holding the condition AB. -/
theorem C6_conditions_collapse_witness :
    List.count (compileSig ['A', 'B'])
      (build_signature_set [((0 : Int), [['A', 'B']])]) = 1 ∧
    c6state.signatures = [((0 : Int), [['A', 'B']])] ∧
    c6state.signature_set = [Matcher.literal ['A', 'B']] :=
  C6_conditions_collapse [((0 : Int), [['A', 'B']])] ['A', 'B'] (by decide)

theorem parseLines_error_at (filt : List Char → Bool) (fname : List Char)
    (post : List (List Char)) (bad : List Char) (perr : PErr)
    (hbad : _parse_line bad = Except.error perr) :
    ∀ (pre : List (List Char)), (∀ l ∈ pre, (_parse_line l).isOk = true) →
    ∀ (n : Nat) (st : ParserState) (inc : Bool),
      parseLines filt fname (pre ++ bad :: post) n st inc =
        Except.error ⟨fname, n + pre.length + 1, perr⟩ := by
  intro pre
  induction pre with
  | nil =>
    intro _ n st inc
    simp [parseLines, hbad]
  | cons l pre ih =>
    intro hpre n st inc
    have hl := hpre l (by simp)
    rw [List.cons_append]
    cases heq : _parse_line l with
    | error e =>
      rw [heq] at hl
      simp [Except.isOk, Except.toBool] at hl
    | ok r =>
      cases r with
      | none =>
        simp only [parseLines, heq]
        rw [ih (fun x hx => hpre x (by simp [hx])) (n + 1)]
        congr 1
        simp
        omega
      | some entry =>
        simp only [parseLines, heq]
        by_cases hf : filt entry.description = true
        · rw [if_pos hf, ih (fun x hx => hpre x (by simp [hx])) (n + 1)]
          congr 1
          simp
          omega
        · rw [if_neg hf, ih (fun x hx => hpre x (by simp [hx])) (n + 1)]
          congr 1
          simp
          omega

/-- C8: a digit-leading line on which the entry parser fails (too few
tokens, or an unparsable offset or numeric condition) makes the per-file
load return an error value wrapping the originating failure with the file
name and the 1-based line number, provided every earlier line parses;
the load of that file stops there and the error is a returned value, not
a crash. -/
theorem C8_malformed_line_error (filt : List Char → Bool) (fname : List Char)
    (pre post : List (List Char)) (bad : List Char) (st : ParserState)
    (perr : PErr)
    (hpre : ∀ l ∈ pre, (_parse_line l).isOk = true)
    (hbad : _parse_line bad = Except.error perr) :
    parse_file filt fname (pre ++ bad :: post) st =
      Except.error ⟨fname, pre.length + 1, perr⟩ := by
  unfold parse_file
  rw [show pre.length + 1 = 0 + pre.length + 1 by omega]
  rw [parseLines_error_at filt fname post bad perr hbad pre hpre 0 st false]

/-- Witness for C8: a file whose second line is digit-leading with only
two tokens fails with the tokenization error wrapped at line 2. -/
theorem C8_malformed_line_error_witness :
    parse_file alwaysInclude (("f").toList)
      [(("comment\n").toList), (("0 byte\n").toList)] initState =
      Except.error ⟨(("f").toList), 2, PErr.tokenization (("0 byte\n").toList)⟩ :=
  C8_malformed_line_error alwaysInclude (("f").toList) [(("comment\n").toList)]
    [] (("0 byte\n").toList) initState
    (PErr.tokenization (("0 byte\n").toList)) (by decide) (by decide)

/-- C9: a missing definition file is non-fatal: the driver emits a
warning for it and continues with the remaining paths on the unchanged
state; concretely, loading a missing path followed by an existing file
still succeeds, processes the existing file, and returns the state whose
fd field is the filtered stream, together with the warning. -/
theorem C9_missing_file_nonfatal (filt : List Char → Bool)
    (fs : List (List Char × List (List Char))) (p : List Char)
    (ps : List (List Char)) (st : ParserState) (w : List (List Char))
    (hmissing : lookupFile fs p = none) :
    parse filt fs (p :: ps) st w = parse filt fs ps st (w ++ [warnMsg p]) ∧
    parse alwaysInclude c9fs [(("missing").toList), (("good").toList)]
        initState [] =
      Except.ok (c9final, [warnMsg (("missing").toList)]) := by
  constructor
  · simp [parse, hmissing]
  · decide

/-- Witness for C9 at an empty modelled file system. -/
theorem C9_missing_file_nonfatal_witness :
    parse alwaysInclude [] [(("m").toList)] initState [] =
      parse alwaysInclude [] [] initState ([] ++ [warnMsg (("m").toList)]) ∧
    parse alwaysInclude c9fs [(("missing").toList), (("good").toList)]
        initState [] =
      Except.ok (c9final, [warnMsg (("missing").toList)]) :=
  C9_missing_file_nonfatal alwaysInclude [] (("m").toList) [] initState []
    (by decide)

theorem parse_file_rebuilds (filt : List Char → Bool) (fname : List Char)
    (lines : List (List Char)) (st st2 : ParserState)
    (h : parse_file filt fname lines st = Except.ok st2) :
    st2.signature_set = build_signature_set st2.signatures := by
  unfold parse_file at h
  split at h
  · simp at h
  · simp only [Except.ok.injEq] at h
    subst h
    rfl

theorem parse_preserves_inv (filt : List Char → Bool)
    (fs : List (List Char × List (List Char))) :
    ∀ (paths : List (List Char)) (st : ParserState) (w : List (List Char))
      (st2 : ParserState) (w2 : List (List Char)),
      st.signature_set = build_signature_set st.signatures →
      parse filt fs paths st w = Except.ok (st2, w2) →
      st2.signature_set = build_signature_set st2.signatures
  | [], st, w, st2, w2, hinv, h => by
    simp only [parse, Except.ok.injEq, Prod.mk.injEq] at h
    obtain ⟨rfl, rfl⟩ := h
    exact hinv
  | p :: ps, st, w, st2, w2, hinv, h => by
    simp only [parse] at h
    split at h
    · rename_i lines hlk
      split at h
      · simp at h
      · rename_i stNew hpf
        exact parse_preserves_inv filt fs ps stNew w st2 w2
          (parse_file_rebuilds filt p lines st stNew hpf) h
    · exact parse_preserves_inv filt fs ps st (w ++ [warnMsg p]) st2 w2 hinv h

/-- C10: every successful per-file load ends with the compiled matcher
set rebuilt from the current catalog, and consequently after a successful
multi-file load (starting from any state satisfying that invariant, as
the fresh state does) the matcher set already equals the compilation of
the whole accumulated catalog, with no explicit build call by the
caller. -/
theorem C10_matcher_set_current (filt : List Char → Bool)
    (fs : List (List Char × List (List Char))) (paths : List (List Char))
    (st st2 : ParserState) (w w2 : List (List Char))
    (hinv : st.signature_set = build_signature_set st.signatures)
    (h : parse filt fs paths st w = Except.ok (st2, w2)) :
    (∀ fname lines s s2, parse_file filt fname lines s = Except.ok s2 →
      s2.signature_set = build_signature_set s2.signatures) ∧
    st2.signature_set = build_signature_set st2.signatures :=
  ⟨fun fname lines s s2 hh => parse_file_rebuilds filt fname lines s s2 hh,
   parse_preserves_inv filt fs paths st w st2 w2 hinv h⟩

/-- Witness for C10 after loading the one-file system `c9fs`. -/
theorem C10_matcher_set_current_witness :
    (∀ fname lines s s2, parse_file alwaysInclude fname lines s = Except.ok s2 →
      s2.signature_set = build_signature_set s2.signatures) ∧
    c9final.signature_set = build_signature_set c9final.signatures :=
  C10_matcher_set_current alwaysInclude c9fs [(("good").toList)] initState
    c9final [] [] (by decide) (by decide)

end Binwalk
